import Mathlib

/-
Verification of the TraceMind consolidation and scoring engine.

This file is a shallow embedding of the algorithmic core of the
TraceMind backend (backend/app/utils.py, backend/app/services/compaction.py,
backend/app/api/routes.py) together with proofs about it.

Modelling conventions:
* Python floats are modelled as rationals (ℚ).  Floating-point rounding is
  out of scope; every concrete input evaluated in this file has an exact
  rational value.
* numpy's Euclidean norm (np.linalg.norm) is modelled as Rat.sqrt of the sum
  of squares.  Rat.sqrt is exact on perfect squares, which covers every
  concrete vector this file evaluates; the general theorems never depend on
  the numeric value of a square root.
* ISO-8601 UTC timestamps compare lexicographically in creation order; they
  are modelled as rational time coordinates (seconds since an epoch), and
  datetime subtraction (now - ts).total_seconds() is rational subtraction.
* Division by zero is total in ℚ and returns 0 where numpy returns NaN/inf
  with a warning.  The claims concerned with zero denominators only test
  whether the code guards the division (it does not); the comments at the
  relevant definitions point out where a NaN would arise in the original.
* The external vector store, embedding provider and clock are parameters:
  snapshots arrive as explicit lists, the current instant as an explicit
  argument.  Dictionary fields read with dict.get(key, default) are Option
  fields read with Option.getD; fields read with dict[key] (raising KeyError
  when absent) are modelled by an upfront Option guard returning none.
-/

namespace TraceMind

/-- Vectors are lists of rational components (numpy 1-d arrays of floats). -/
abbrev Vec := List ℚ

/-- CompactionService.SIM_THRESHOLD (compaction.py line 20). -/
def SIM_THRESHOLD : ℚ := 92/100

/-- CompactionService.MIN_IMPORTANCE_KEEP (compaction.py line 21). -/
def MIN_IMPORTANCE_KEEP : ℚ := 2/10

/-- CompactionService.MAX_CLUSTER_SIZE (compaction.py line 22). -/
def MAX_CLUSTER_SIZE : Nat := 10

/-- CompactionService.DECAY_RATE, also the inline decay_rate of routes.recall
(compaction.py line 23, routes.py line 138). -/
def DECAY_RATE : ℚ := 1/100

/-- CompactionService.DELETE_SIMILARITY_THRESHOLD (compaction.py line 24). -/
def DELETE_SIMILARITY_THRESHOLD : ℚ := 88/100

/-- CompactionService.DELETE_AGE_THRESHOLD_DAYS (compaction.py line 25). -/
def DELETE_AGE_THRESHOLD_DAYS : ℚ := 30

/-- The inline alpha of routes.recall (routes.py line 137). -/
def ALPHA : ℚ := 7/10

/-- np.dot on equal-length vectors. -/
def dot (a b : Vec) : ℚ := (List.zipWith (fun x y => x * y) a b).sum

/-- Squared Euclidean norm. -/
def vecNormSq (a : Vec) : ℚ := dot a a

/-- np.linalg.norm, modelled as the rational square root of the sum of
squares (exact on perfect squares, which covers every evaluation below). -/
def vecNorm (a : Vec) : ℚ := Rat.sqrt (vecNormSq a)

/-- utils.cosine_similarity (utils.py lines 43-45):
np.dot(a, b) / (np.linalg.norm(a) * np.linalg.norm(b)).
There is no zero-norm or dimension check in the source; when a norm is zero
the Python code divides by zero and numpy yields NaN (modelled here by
rational division by zero, which returns 0). -/
def cosine_similarity (a b : Vec) : ℚ := dot a b / (vecNorm a * vecNorm b)

/-- utils.calculate_age_days (utils.py lines 36-40):
(now - ts).total_seconds() / 86400.0, with the current instant made an
explicit argument.  The source applies no clamping of any kind. -/
def calculate_age_days (now ts : ℚ) : ℚ := (now - ts) / 86400

/-- Metadata dictionary of a stored memory.  Fields the source reads with
dict.get(key, default) are Options; timestamp is read with meta["timestamp"]
everywhere and is always present on stored entries. -/
structure Meta where
  timestamp : ℚ
  importance : Option ℚ
  topic : Option String
  source : String
  merge_count : Option ℤ
  last_merged_at : Option ℚ
deriving DecidableEq, Inhabited

/-- One stored memory as fetched in a snapshot: id, embedding, document
text and metadata (index-aligned lists in the source). -/
structure Entry where
  id : String
  emb : Vec
  doc : String
  meta : Meta
deriving DecidableEq, Inhabited

/-- Ids of a cluster's members. -/
def idsOf (c : List Entry) : List String := c.map (fun e => e.id)

/-- Recency weight of routes.recall (routes.py line 151):
max(0, 1 - decay_rate * age_days) if decay else 1.0. -/
def recency_weight (decay : Bool) (age_days : ℚ) : ℚ :=
  if decay then max 0 (1 - DECAY_RATE * age_days) else 1

/-- One candidate row returned by the external vector store for a query. -/
structure Candidate where
  id : String
  doc : String
  meta : Meta
  emb : Vec
deriving DecidableEq, Inhabited

/-- models.RecallResult as built in routes.recall. -/
structure RecallResult where
  id : String
  document : String
  metadata : Meta
  score : ℚ
  raw_similarity : ℚ
  age_days : ℚ
deriving DecidableEq, Inhabited

/-- Scoring of one candidate in routes.recall (routes.py lines 140-164):
raw cosine similarity, age, recency weight, importance defaulting to 0.5,
and final_score = raw * (alpha * recency + (1 - alpha) * importance). -/
def scoreCandidate (queryEmb : Vec) (now : ℚ) (decay : Bool) (c : Candidate) :
    RecallResult :=
  let raw_similarity := cosine_similarity queryEmb c.emb
  let age_days := calculate_age_days now c.meta.timestamp
  let recencyW := recency_weight decay age_days
  let importance := c.meta.importance.getD (1/2)
  { id := c.id
    document := c.doc
    metadata := c.meta
    score := raw_similarity * (ALPHA * recencyW + (1 - ALPHA) * importance)
    raw_similarity := raw_similarity
    age_days := age_days }

/-- Stable insertion of a scored result into a descending-sorted list: the
new element goes in front of the first element whose score is less than or
equal to its own, i.e. after every strictly greater element. -/
def insertScored (x : RecallResult) : List RecallResult → List RecallResult
  | [] => [x]
  | y :: ys => if y.score ≤ x.score then x :: y :: ys else y :: insertScored x ys

/-- Python's list.sort(key score, reverse True) is a stable descending sort;
a stable sort by a fixed key is unique, so it is modelled by stable
insertion sort (routes.py line 167). -/
def sortByScoreDesc (l : List RecallResult) : List RecallResult :=
  l.foldr insertScored []

/-- routes.recall (routes.py lines 87-168): request k_raw = min(k * 2, 100)
candidates from the external store (the store, including any topic filter,
is the function argument), return [] when there are none, otherwise score
every candidate, sort descending by final score and keep the first k. -/
def recallEndpoint (store : Nat → List Candidate) (queryEmb : Vec) (k : Nat)
    (decay : Bool) (now : ℚ) : List RecallResult :=
  let k_raw := min (k * 2) 100
  let results := store k_raw
  if results.isEmpty then []
  else (sortByScoreDesc (results.map (scoreCandidate queryEmb now decay))).take k

/-- Single-linkage test of CompactionService._build_clusters (compaction.py
lines 144-155): a candidate joins when its cosine similarity with at least
one current member reaches SIM_THRESHOLD. -/
def similarToSome (e : Entry) (cluster : List Entry) : Bool :=
  cluster.any (fun m => decide (SIM_THRESHOLD ≤ cosine_similarity e.emb m.emb))

/-- Inner loop of CompactionService._build_clusters (compaction.py lines
139-159): scan the remaining entries in order; skip ids already clustered;
add a similar candidate to the cluster and mark its id clustered at once;
stop as soon as the cluster reaches MAX_CLUSTER_SIZE. -/
def growCluster : List Entry → List String → List Entry → List Entry × List String
  | cluster, clustered, [] => (cluster, clustered)
  | cluster, clustered, e :: rest =>
    if e.id ∈ clustered then growCluster cluster clustered rest
    else
      let p := if similarToSome e cluster
        then (cluster ++ [e], e.id :: clustered)
        else (cluster, clustered)
      if MAX_CLUSTER_SIZE ≤ p.1.length then p
      else growCluster p.1 p.2 rest

/-- Outer loop of CompactionService._build_clusters (compaction.py lines
128-169): each unclustered entry seeds a cluster grown over the subsequent
entries; clusters of size at least 2 are kept and their seed's id is marked
clustered (members were marked during growth); singleton clusters are
discarded without marking the seed. -/
def build_clusters_aux : List String → List Entry → List (List Entry)
  | _, [] => []
  | clustered, e :: rest =>
    if e.id ∈ clustered then build_clusters_aux clustered rest
    else
      let p := growCluster [e] clustered rest
      if 2 ≤ p.1.length then p.1 :: build_clusters_aux (e.id :: p.2) rest
      else build_clusters_aux p.2 rest

/-- CompactionService._build_clusters (compaction.py lines 105-171) on a
snapshot of entries. -/
def build_clusters (entries : List Entry) : List (List Entry) :=
  build_clusters_aux [] entries

/-- Per-member merge weights of CompactionService._merge_cluster
(compaction.py lines 188-193): importance times max(0, 1 - DECAY_RATE *
age_days).  The source reads meta["importance"], raising KeyError when the
key is absent; merge_cluster below guards that case upfront, so the getD 0
default is never the value used. -/
def merge_weights (now : ℚ) (c : List Entry) : List ℚ :=
  c.map (fun m =>
    m.meta.importance.getD 0 *
      max 0 (1 - DECAY_RATE * calculate_age_days now m.meta.timestamp))

/-- Weight normalization of CompactionService._merge_cluster (compaction.py
lines 195-198): replace an all-zero-sum weight vector by all ones
(np.ones_like), then divide by the sum. -/
def normalizedWeights (ws : List ℚ) : List ℚ :=
  let ws' := if ws.sum = 0 then List.replicate ws.length 1 else ws
  ws'.map (fun w => w / ws'.sum)

/-- Scaling one embedding row by its weight. -/
def vecScale (c : ℚ) (v : Vec) : Vec := v.map (fun x => c * x)

/-- Componentwise vector addition. -/
def vecAdd (a b : Vec) : Vec := List.zipWith (fun x y => x + y) a b

/-- np.sum(embeddings * weights[:, np.newaxis], axis=0): the sum of the
weight-scaled embedding rows (compaction.py line 202). -/
def weightedVecSum (ws : List ℚ) (vs : List Vec) : Vec :=
  match List.zipWith vecScale ws vs with
  | [] => []
  | v :: rest => rest.foldl vecAdd v

/-- The merged embedding before unit normalization (compaction.py line 202):
the importance/recency-weighted sum of the cluster's embeddings with the
weights normalized to sum to 1. -/
def merge_prenorm (now : ℚ) (c : List Entry) : Vec :=
  weightedVecSum (normalizedWeights (merge_weights now c)) (c.map (fun m => m.emb))

/-- Collects the members' importance values; none when any member lacks the
importance key (the KeyError of meta["importance"] in the source). -/
def importancesOf (c : List Entry) : Option (List ℚ) :=
  c.mapM (fun m => m.meta.importance)

/-- The consolidated memory produced by a merge: its text, embedding and
metadata (the id is assigned by the external store on insertion). -/
structure Merged where
  text : String
  emb : Vec
  meta : Meta
deriving DecidableEq, Inhabited

/-- max(timestamps) over a nonempty cluster (compaction.py line 209);
Python's max over ISO strings is the maximum instant. -/
def maxTimestamp (e : Entry) (rest : List Entry) : ℚ :=
  List.foldl max e.meta.timestamp (rest.map (fun m => m.meta.timestamp))

/-- timestamps.index(max(timestamps)): the first position holding the
maximal timestamp (compaction.py line 209). -/
def newestIdx (e : Entry) (rest : List Entry) : Nat :=
  ((e :: rest).map (fun m => m.meta.timestamp)).findIdx
    (fun t => t == maxTimestamp e rest)

/-- max(meta["importance"] for meta in metadatas) over a nonempty cluster
(compaction.py line 215); merge_cluster guards the missing-importance
KeyError upfront, so the getD 0 default is never the value used. -/
def maxImportance (e : Entry) (rest : List Entry) : ℚ :=
  List.foldl max (e.meta.importance.getD 0)
    (rest.map (fun m => m.meta.importance.getD 0))

/-- CompactionService._merge_cluster (compaction.py lines 173-235).  Returns
the new entry together with the member ids the source then deletes; none
models the exceptions the source can raise before any side effect (max() on
an empty cluster, KeyError on a missing importance).  There is no
degenerate-sum check anywhere in the source: when the weighted sum is the
zero vector the division by vecNorm is a division by zero (NaN embedding in
numpy, 0 here) and the function still returns the new entry and the full
deletion list. -/
def merge_cluster (now : ℚ) (c : List Entry) : Option (Merged × List String) :=
  match c with
  | [] => none
  | e :: rest =>
    match importancesOf (e :: rest) with
    | none => none
    | some _ =>
      let prenorm := merge_prenorm now (e :: rest)
      let merged := prenorm.map (fun x => x / vecNorm prenorm)
      let newest := (e :: rest).getD (newestIdx e rest) e
      some
        ({ text := newest.doc
           emb := merged
           meta :=
             { timestamp := newest.meta.timestamp
               importance := some (maxImportance e rest)
               topic := newest.meta.topic
               source := "compaction"
               merge_count :=
                 some ((((e :: rest).map (fun m => m.meta.merge_count.getD 0)).sum : ℤ)
                   + ((e :: rest).length : ℤ) - 1)
               last_merged_at := some now } },
          (e :: rest).map (fun m => m.id))

/-- Deletion test of CompactionService._delete_redundant_memories
(compaction.py lines 252-269) for the entry at index i: importance
(defaulting to 0.5) below MIN_IMPORTANCE_KEEP, age above
DELETE_AGE_THRESHOLD_DAYS, and some other index whose embedding is at least
DELETE_SIMILARITY_THRESHOLD similar.  The scan runs over the whole snapshot,
with no regard to whether the other entry is itself being marked. -/
def pruneCond (now : ℚ) (s : List Entry) (i : Nat) (e : Entry) : Bool :=
  decide (e.meta.importance.getD (1/2) < MIN_IMPORTANCE_KEEP) &&
  decide (DELETE_AGE_THRESHOLD_DAYS < calculate_age_days now e.meta.timestamp) &&
  (List.range s.length).any (fun j =>
    decide (j ≠ i) &&
    decide (DELETE_SIMILARITY_THRESHOLD ≤
      cosine_similarity e.emb (s.getD j default).emb))

/-- Indices the pruning pass marks for deletion. -/
def prunedIdxs (now : ℚ) (s : List Entry) : List Nat :=
  (List.range s.length).filter (fun i => pruneCond now s i (s.getD i default))

/-- CompactionService._delete_redundant_memories (compaction.py lines
237-274): the ids handed to the store for deletion, in snapshot order. -/
def delete_redundant_memories (now : ℚ) (s : List Entry) : List String :=
  (prunedIdxs now s).map (fun i => (s.getD i default).id)

/-- Unfolding: a candidate whose id is already clustered is skipped. -/
lemma growCluster_cons_mem {e : Entry} {clustered : List String}
    (cluster : List Entry) (rest : List Entry) (h : e.id ∈ clustered) :
    growCluster cluster clustered (e :: rest) = growCluster cluster clustered rest := by
  simp [growCluster, h]

/-- Unfolding: a similar candidate is added and growth stops at the cap. -/
lemma growCluster_cons_add_stop {e : Entry} {cluster : List Entry}
    {clustered : List String} (rest : List Entry) (h1 : e.id ∉ clustered)
    (h2 : similarToSome e cluster = true)
    (h3 : MAX_CLUSTER_SIZE ≤ (cluster ++ [e]).length) :
    growCluster cluster clustered (e :: rest) = (cluster ++ [e], e.id :: clustered) := by
  have h3' : MAX_CLUSTER_SIZE ≤ cluster.length + 1 := by simpa using h3
  simp [growCluster, h1, h2, h3']

/-- Unfolding: a similar candidate is added and growth continues. -/
lemma growCluster_cons_add_go {e : Entry} {cluster : List Entry}
    {clustered : List String} (rest : List Entry) (h1 : e.id ∉ clustered)
    (h2 : similarToSome e cluster = true)
    (h3 : ¬ MAX_CLUSTER_SIZE ≤ (cluster ++ [e]).length) :
    growCluster cluster clustered (e :: rest) =
      growCluster (cluster ++ [e]) (e.id :: clustered) rest := by
  have h3' : ¬ MAX_CLUSTER_SIZE ≤ cluster.length + 1 := by simpa using h3
  simp [growCluster, h1, h2, h3']

/-- Unfolding: a dissimilar candidate is passed over. -/
lemma growCluster_cons_skip {e : Entry} {cluster : List Entry}
    {clustered : List String} (rest : List Entry) (h1 : e.id ∉ clustered)
    (h2 : similarToSome e cluster = false)
    (h3 : ¬ MAX_CLUSTER_SIZE ≤ cluster.length) :
    growCluster cluster clustered (e :: rest) = growCluster cluster clustered rest := by
  simp [growCluster, h1, h2, h3]

/-- Unfolding: at the cap with a dissimilar candidate, growth stops. -/
lemma growCluster_cons_stop {e : Entry} {cluster : List Entry}
    {clustered : List String} (rest : List Entry) (h1 : e.id ∉ clustered)
    (h2 : similarToSome e cluster = false)
    (h3 : MAX_CLUSTER_SIZE ≤ cluster.length) :
    growCluster cluster clustered (e :: rest) = (cluster, clustered) := by
  simp [growCluster, h1, h2, h3]

/-- Growing a cluster only adds to the clustered-id set, and every entry of
the grown cluster is either an original member or a new one whose id was
recorded in the clustered set and was not clustered before. -/
lemma growCluster_spec (rest : List Entry) : ∀ cluster clustered,
    clustered ⊆ (growCluster cluster clustered rest).2 ∧
    ∃ t, (growCluster cluster clustered rest).1 = cluster ++ t ∧
      ∀ x ∈ t, x.id ∈ (growCluster cluster clustered rest).2 ∧ x.id ∉ clustered := by
  induction rest with
  | nil =>
    intro cluster clustered
    refine ⟨by simp [growCluster], [], by simp [growCluster], by simp⟩
  | cons e rest ih =>
    intro cluster clustered
    by_cases h1 : e.id ∈ clustered
    · simpa only [growCluster_cons_mem cluster rest h1] using ih cluster clustered
    · cases h2 : similarToSome e cluster with
      | true =>
        by_cases h3 : MAX_CLUSTER_SIZE ≤ (cluster ++ [e]).length
        · rw [growCluster_cons_add_stop rest h1 h2 h3]
          refine ⟨fun a ha => List.mem_cons_of_mem _ ha, [e], by simp, ?_⟩
          intro x hx
          rcases List.mem_singleton.mp hx with rfl
          exact ⟨List.mem_cons_self _ _, h1⟩
        · rw [growCluster_cons_add_go rest h1 h2 h3]
          obtain ⟨hsub, t, ht1, ht2⟩ := ih (cluster ++ [e]) (e.id :: clustered)
          refine ⟨fun a ha => hsub (List.mem_cons_of_mem _ ha), e :: t, ?_, ?_⟩
          · rw [ht1]; simp
          · intro x hx
            rcases List.mem_cons.mp hx with rfl | hx
            · exact ⟨hsub (List.mem_cons_self _ _), h1⟩
            · exact ⟨(ht2 x hx).1, fun hc => (ht2 x hx).2 (List.mem_cons_of_mem _ hc)⟩
      | false =>
        by_cases h3 : MAX_CLUSTER_SIZE ≤ cluster.length
        · rw [growCluster_cons_stop rest h1 h2 h3]
          exact ⟨fun a ha => ha, [], by simp, by simp⟩
        · simpa only [growCluster_cons_skip rest h1 h2 h3] using ih cluster clustered

/-- The MAX_CLUSTER_SIZE cap: a cluster that starts below the cap never
grows past it. -/
lemma growCluster_length_le (rest : List Entry) : ∀ cluster clustered,
    cluster.length < MAX_CLUSTER_SIZE →
    (growCluster cluster clustered rest).1.length ≤ MAX_CLUSTER_SIZE := by
  induction rest with
  | nil => intro cluster clustered h; simpa [growCluster] using Nat.le_of_lt h
  | cons e rest ih =>
    intro cluster clustered h
    by_cases h1 : e.id ∈ clustered
    · simpa only [growCluster_cons_mem cluster rest h1] using ih cluster clustered h
    · cases h2 : similarToSome e cluster with
      | true =>
        by_cases h3 : MAX_CLUSTER_SIZE ≤ (cluster ++ [e]).length
        · rw [growCluster_cons_add_stop rest h1 h2 h3]
          simpa using h
        · rw [growCluster_cons_add_go rest h1 h2 h3]
          exact ih _ _ (Nat.lt_of_not_ge h3)
      | false =>
        by_cases h3 : MAX_CLUSTER_SIZE ≤ cluster.length
        · exact absurd h3 (Nat.not_le_of_lt h)
        · simpa only [growCluster_cons_skip rest h1 h2 h3] using ih cluster clustered h

/-- Growing a cluster never shrinks it. -/
lemma growCluster_le_length (rest : List Entry) (cluster : List Entry)
    (clustered : List String) :
    cluster.length ≤ (growCluster cluster clustered rest).1.length := by
  obtain ⟨-, t, ht1, -⟩ := growCluster_spec rest cluster clustered
  simp [ht1]

/-- Unfolding: a seed whose id is already clustered is skipped. -/
lemma build_clusters_aux_cons_mem {e : Entry} {clustered : List String}
    (rest : List Entry) (h : e.id ∈ clustered) :
    build_clusters_aux clustered (e :: rest) = build_clusters_aux clustered rest := by
  simp [build_clusters_aux, h]

/-- Unfolding: a grown cluster of size at least 2 is kept. -/
lemma build_clusters_aux_cons_keep {e : Entry} {clustered : List String}
    (rest : List Entry) (h1 : e.id ∉ clustered)
    (h2 : 2 ≤ (growCluster [e] clustered rest).1.length) :
    build_clusters_aux clustered (e :: rest) =
      (growCluster [e] clustered rest).1 ::
        build_clusters_aux (e.id :: (growCluster [e] clustered rest).2) rest := by
  simp [build_clusters_aux, h1, h2]

/-- Unfolding: a singleton cluster is discarded. -/
lemma build_clusters_aux_cons_drop {e : Entry} {clustered : List String}
    (rest : List Entry) (h1 : e.id ∉ clustered)
    (h2 : ¬ 2 ≤ (growCluster [e] clustered rest).1.length) :
    build_clusters_aux clustered (e :: rest) =
      build_clusters_aux (growCluster [e] clustered rest).2 rest := by
  simp [build_clusters_aux, h1, h2]

/-- Combined invariant of the clustering pass, by induction over the
snapshot with the clustered-id accumulator generalized: every kept cluster
has between 2 and MAX_CLUSTER_SIZE members, contains no id that was already
clustered, and the kept clusters are pairwise id-disjoint. -/
lemma build_clusters_aux_spec (entries : List Entry) : ∀ clustered,
    (∀ c ∈ build_clusters_aux clustered entries,
        2 ≤ c.length ∧ c.length ≤ MAX_CLUSTER_SIZE) ∧
    (∀ c ∈ build_clusters_aux clustered entries, ∀ x ∈ c, x.id ∉ clustered) ∧
    List.Pairwise (fun c d => ∀ s ∈ idsOf c, s ∉ idsOf d)
      (build_clusters_aux clustered entries) := by
  induction entries with
  | nil => intro clustered; simp [build_clusters_aux]
  | cons e rest ih =>
    intro clustered
    by_cases h1 : e.id ∈ clustered
    · simpa only [build_clusters_aux_cons_mem rest h1] using ih clustered
    · obtain ⟨hsub, t, ht1, ht2⟩ := growCluster_spec rest [e] clustered
      by_cases h2 : 2 ≤ (growCluster [e] clustered rest).1.length
      · rw [build_clusters_aux_cons_keep rest h1 h2]
        obtain ⟨ihSize, ihFresh, ihPair⟩ := ih (e.id :: (growCluster [e] clustered rest).2)
        have hmem1 : ∀ x ∈ (growCluster [e] clustered rest).1,
            x.id ∈ e.id :: (growCluster [e] clustered rest).2 := by
          intro x hx
          rw [ht1] at hx
          rcases List.mem_append.mp hx with hx | hx
          · rcases List.mem_singleton.mp hx with rfl
            exact List.mem_cons_self _ _
          · exact List.mem_cons_of_mem _ (ht2 x hx).1
        refine ⟨?_, ?_, ?_⟩
        · intro c hc
          rcases List.mem_cons.mp hc with rfl | hc
          · exact ⟨h2, growCluster_length_le rest [e] clustered (by
              simp [MAX_CLUSTER_SIZE])⟩
          · exact ihSize c hc
        · intro c hc x hx
          rcases List.mem_cons.mp hc with rfl | hc
          · rw [ht1] at hx
            rcases List.mem_append.mp hx with hx | hx
            · rcases List.mem_singleton.mp hx with rfl; exact h1
            · exact (ht2 x hx).2
          · intro hcl
            exact ihFresh c hc x hx (List.mem_cons_of_mem _ (hsub hcl))
        · refine List.Pairwise.cons ?_ ihPair
          intro d hd s hs hsd
          obtain ⟨x, hx, rfl⟩ := List.mem_map.mp hs
          obtain ⟨y, hy, hxy⟩ := List.mem_map.mp hsd
          have := ihFresh d hd y hy
          rw [hxy] at this
          exact this (hmem1 x hx)
      · rw [build_clusters_aux_cons_drop rest h1 h2]
        obtain ⟨ihSize, ihFresh, ihPair⟩ := ih (growCluster [e] clustered rest).2
        exact ⟨ihSize, fun c hc x hx hcl => ihFresh c hc x hx (hsub hcl), ihPair⟩

/-- C3: for every input snapshot, the Clustering Engine returns clusters
such that every entry id appears in at most one returned cluster (distinct
returned clusters have pairwise disjoint id lists), and every returned
cluster has size at least 2 and at most MAX_CLUSTER_SIZE = 10. -/
theorem clustering_disjoint_and_bounded (entries : List Entry) :
    (∀ c ∈ build_clusters entries, 2 ≤ c.length ∧ c.length ≤ MAX_CLUSTER_SIZE) ∧
    MAX_CLUSTER_SIZE = 10 ∧
    List.Pairwise (fun c d => ∀ s ∈ idsOf c, s ∉ idsOf d) (build_clusters entries) := by
  obtain ⟨h1, -, h3⟩ := build_clusters_aux_spec entries []
  exact ⟨h1, rfl, h3⟩

/-- A first sample memory: a unit embedding along the first axis. -/
def entA : Entry :=
  { id := "a", emb := [1, 0], doc := "doc a",
    meta := { timestamp := 0, importance := some 1, topic := none,
              source := "manual", merge_count := some 0, last_merged_at := none } }

/-- A second sample memory with the same embedding direction as entA. -/
def entB : Entry :=
  { id := "b", emb := [1, 0], doc := "doc b",
    meta := { timestamp := 0, importance := some 1, topic := some "t",
              source := "manual", merge_count := some 0, last_merged_at := none } }

/-- Concrete clustering run: two identical-direction unit embeddings form
one cluster. -/
lemma build_clusters_pair : build_clusters [entA, entB] = [[entA, entB]] := by
  norm_num [build_clusters, build_clusters_aux, growCluster, similarToSome,
    cosine_similarity, vecNorm, vecNormSq, dot, SIM_THRESHOLD, MAX_CLUSTER_SIZE,
    entA, entB]

/-- Witness for C3 at a concrete snapshot: the single returned cluster has
size 2, within the bounds. -/
theorem clustering_disjoint_and_bounded_witness :
    2 ≤ ([entA, entB] : List Entry).length ∧
      ([entA, entB] : List Entry).length ≤ MAX_CLUSTER_SIZE :=
  (clustering_disjoint_and_bounded [entA, entB]).1 [entA, entB]
    (by rw [build_clusters_pair]; exact List.mem_singleton.mpr rfl)

/-- C4 (amended): every id the pruning pass marks belongs to a snapshot
index whose effective importance (default 0.5) is below
MIN_IMPORTANCE_KEEP, whose age exceeds DELETE_AGE_THRESHOLD_DAYS, and for
which some other snapshot index is at least
DELETE_SIMILARITY_THRESHOLD-similar; the similar other entry exists in the
snapshot but may itself be marked for deletion in the same pass. -/
theorem pruned_entry_has_similar_other (now : ℚ) (s : List Entry) (n : String)
    (h : n ∈ delete_redundant_memories now s) :
    ∃ i, i < s.length ∧ (s.getD i default).id = n ∧
      (s.getD i default).meta.importance.getD (1/2) < MIN_IMPORTANCE_KEEP ∧
      DELETE_AGE_THRESHOLD_DAYS <
        calculate_age_days now (s.getD i default).meta.timestamp ∧
      ∃ j, j < s.length ∧ j ≠ i ∧
        DELETE_SIMILARITY_THRESHOLD ≤
          cosine_similarity (s.getD i default).emb (s.getD j default).emb := by
  unfold delete_redundant_memories prunedIdxs at h
  obtain ⟨i, hi, rfl⟩ := List.mem_map.mp h
  obtain ⟨hir, hcond⟩ := List.mem_filter.mp hi
  have hilen := List.mem_range.mp hir
  unfold pruneCond at hcond
  simp only [Bool.and_eq_true, decide_eq_true_eq, List.any_eq_true,
    List.mem_range] at hcond
  obtain ⟨⟨himp, hage⟩, j, hj, hjne, hsim⟩ := hcond
  exact ⟨i, hilen, rfl, himp, hage, j, hj, hjne, hsim⟩

/-- A weak, old memory (importance 0.1). -/
def entWeakA : Entry :=
  { id := "wa", emb := [1, 0], doc := "weak a",
    meta := { timestamp := 0, importance := some (1/10), topic := none,
              source := "manual", merge_count := some 0, last_merged_at := none } }

/-- A second weak, old memory similar to entWeakA. -/
def entWeakB : Entry :=
  { id := "wb", emb := [1, 0], doc := "weak b",
    meta := { timestamp := 0, importance := some (1/10), topic := none,
              source := "manual", merge_count := some 0, last_merged_at := none } }

/-- Concrete pruning run 45 days after creation: the two mutually similar
weak entries are both marked for deletion. -/
lemma prune_pair_eval :
    delete_redundant_memories 3888000 [entWeakA, entWeakB] = ["wa", "wb"] := by
  norm_num [delete_redundant_memories, prunedIdxs, pruneCond, cosine_similarity,
    vecNorm, vecNormSq, dot, calculate_age_days, MIN_IMPORTANCE_KEEP,
    DELETE_AGE_THRESHOLD_DAYS, DELETE_SIMILARITY_THRESHOLD, entWeakA, entWeakB,
    show List.range 2 = [0, 1] from rfl]

/-- Counterexample to C4 as stated: in the two-entry snapshot above, entry
"wa" is marked for deletion, yet every other entry that is at least
0.88-similar to it (namely "wb") is itself marked in the same pass — the
pass deletes the last remaining entries similar to each other. -/
theorem pruning_survivor_also_marked :
    delete_redundant_memories 3888000 [entWeakA, entWeakB] = ["wa", "wb"] ∧
    "wa" ∈ delete_redundant_memories 3888000 [entWeakA, entWeakB] ∧
    ¬ ∃ j, j < ([entWeakA, entWeakB] : List Entry).length ∧ j ≠ 0 ∧
        DELETE_SIMILARITY_THRESHOLD ≤
          cosine_similarity entWeakA.emb
            (([entWeakA, entWeakB] : List Entry).getD j default).emb ∧
        (([entWeakA, entWeakB] : List Entry).getD j default).id ∉
          delete_redundant_memories 3888000 [entWeakA, entWeakB] := by
  refine ⟨prune_pair_eval, by rw [prune_pair_eval]; simp, ?_⟩
  rintro ⟨j, hj2, hj0, -, hnot⟩
  have hj1 : j = 1 := by
    simp only [List.length_cons, List.length_nil] at hj2
    omega
  subst hj1
  apply hnot
  rw [prune_pair_eval]
  simp [entWeakB]

/-- Witness for the amended C4 at the concrete snapshot: the marked id "wa"
is index 0, its conditions hold, and index 1 is its similar other entry. -/
theorem pruned_entry_has_similar_other_witness :
    ∃ i, i < ([entWeakA, entWeakB] : List Entry).length ∧
      (([entWeakA, entWeakB] : List Entry).getD i default).id = "wa" ∧
      (([entWeakA, entWeakB] : List Entry).getD i default).meta.importance.getD (1/2) <
        MIN_IMPORTANCE_KEEP ∧
      DELETE_AGE_THRESHOLD_DAYS <
        calculate_age_days 3888000
          (([entWeakA, entWeakB] : List Entry).getD i default).meta.timestamp ∧
      ∃ j, j < ([entWeakA, entWeakB] : List Entry).length ∧ j ≠ i ∧
        DELETE_SIMILARITY_THRESHOLD ≤
          cosine_similarity (([entWeakA, entWeakB] : List Entry).getD i default).emb
            (([entWeakA, entWeakB] : List Entry).getD j default).emb :=
  pruned_entry_has_similar_other 3888000 [entWeakA, entWeakB] "wa"
    (by rw [prune_pair_eval]; simp)

/-- C10: an entry whose metadata lacks the importance key is scored with
importance 0.5 everywhere: the pruning condition is false for it (0.5 is
not below MIN_IMPORTANCE_KEEP), so it is never marked regardless of its age
or of similar entries, and recall scoring uses 0.5 in its final score. -/
theorem missing_importance_treated_as_half :
    (∀ (now : ℚ) (s : List Entry) (i : Nat) (e : Entry),
       e.meta.importance = none → pruneCond now s i e = false) ∧
    (∀ (now : ℚ) (s : List Entry) (i : Nat),
       (s.getD i default).meta.importance = none → i ∉ prunedIdxs now s) ∧
    (∀ (queryEmb : Vec) (now : ℚ) (decay : Bool) (c : Candidate),
       c.meta.importance = none →
       (scoreCandidate queryEmb now decay c).score =
         (scoreCandidate queryEmb now decay c).raw_similarity *
           (ALPHA * recency_weight decay (scoreCandidate queryEmb now decay c).age_days +
            (1 - ALPHA) * (1/2))) := by
  have hbase : ∀ (now : ℚ) (s : List Entry) (i : Nat) (e : Entry),
      e.meta.importance = none → pruneCond now s i e = false := by
    intro now s i e he
    unfold pruneCond
    rw [he]
    norm_num [MIN_IMPORTANCE_KEEP]
  refine ⟨hbase, ?_, ?_⟩
  · intro now s i h hmem
    have hc := (List.mem_filter.mp hmem).2
    rw [hbase now s i _ h] at hc
    exact Bool.false_ne_true hc
  · intro queryEmb now decay c hc
    simp [scoreCandidate, hc]

/-- A candidate row whose metadata lacks the importance key. -/
def candNoImp : Candidate :=
  { id := "n", doc := "no importance",
    meta := { timestamp := 0, importance := none, topic := none,
              source := "manual", merge_count := some 0, last_merged_at := none },
    emb := [1, 0] }

/-- Witness for C10 at concrete inputs: the entry built from candNoImp is
never marked by pruning, and its recall score uses importance 0.5. -/
theorem missing_importance_treated_as_half_witness :
    pruneCond 3888000 [] 0
        { id := "n", emb := [1, 0], doc := "no importance", meta := candNoImp.meta } = false ∧
    (scoreCandidate [1, 0] 0 true candNoImp).score =
      (scoreCandidate [1, 0] 0 true candNoImp).raw_similarity *
        (ALPHA * recency_weight true (scoreCandidate [1, 0] 0 true candNoImp).age_days +
         (1 - ALPHA) * (1/2)) :=
  ⟨missing_importance_treated_as_half.1 3888000 [] 0 _ rfl,
   missing_importance_treated_as_half.2.2 [1, 0] 0 true candNoImp rfl⟩

/-- A memory whose embedding exactly cancels entA's embedding. -/
def entNegX : Entry :=
  { id := "nx", emb := [-1, 0], doc := "doc nx",
    meta := { timestamp := 0, importance := some 1, topic := none,
              source := "manual", merge_count := some 0, last_merged_at := none } }

/-- C1 (the code evaluated at the failing input): for the two-member
cluster whose unit vectors cancel, the importance/recency-weighted vector
sum (weights normalized to sum to 1) is the zero vector — exactly the
degenerate case the claim says must abort with DegenerateMerge leaving the
members untouched.  The source has no such path: merge_cluster still
returns a merged entry, whose embedding is the zero vector divided by its
zero norm (NaN in numpy, 0 here), together with both member ids for
deletion. -/
theorem degenerate_merge_not_aborted :
    merge_prenorm 0 [entA, entNegX] = [0, 0] ∧
    merge_cluster 0 [entA, entNegX] =
      some ({ text := "doc a", emb := [0, 0],
              meta := { timestamp := 0, importance := some 1, topic := none,
                        source := "compaction", merge_count := some 1,
                        last_merged_at := some 0 } },
            ["a", "nx"]) := by
  constructor
  · norm_num [merge_prenorm, merge_weights, normalizedWeights, weightedVecSum,
      vecScale, vecAdd, calculate_age_days, DECAY_RATE, entA, entNegX]
  · norm_num [merge_cluster, importancesOf, List.mapM, List.mapM.loop,
      List.findIdx_cons, maxTimestamp, newestIdx, maxImportance,
      merge_prenorm, merge_weights, normalizedWeights,
      weightedVecSum, vecScale, vecAdd, vecNorm, vecNormSq, dot,
      calculate_age_days, DECAY_RATE, entA, entNegX]

/-- A candidate row carrying a zero-norm embedding. -/
def candZero : Candidate :=
  { id := "z", doc := "zero vector",
    meta := { timestamp := 0, importance := some 1, topic := none,
              source := "manual", merge_count := some 0, last_merged_at := none },
    emb := [0, 0] }

/-- C2 (the code evaluated at the failing input): cosine_similarity has no
zero-norm (or dimension) check: with a zero-norm vector the denominator is
exactly 0 and the division executes anyway (NaN in numpy, 0 in the
rational model), and the recall path silently scores and returns such a
candidate.  No InvalidVector error exists anywhere in the source. -/
theorem zero_norm_not_guarded :
    vecNorm [(0 : ℚ), 0] = 0 ∧
    vecNorm [(1 : ℚ), 0] * vecNorm [(0 : ℚ), 0] = 0 ∧
    cosine_similarity [1, 0] [0, 0] = 0 ∧
    recallEndpoint (fun _ => [candZero]) [1, 0] 5 true 0 =
      [scoreCandidate [1, 0] 0 true candZero] ∧
    (scoreCandidate [1, 0] 0 true candZero).raw_similarity = 0 := by
  refine ⟨?_, ?_, ?_, ?_, ?_⟩
  · norm_num [vecNorm, vecNormSq, dot]
  · norm_num [vecNorm, vecNormSq, dot]
  · norm_num [cosine_similarity, vecNorm, vecNormSq, dot]
  · norm_num [recallEndpoint, sortByScoreDesc, insertScored]
  · norm_num [scoreCandidate, cosine_similarity, vecNorm, vecNormSq, dot, candZero]

/-- Counterexample to C7 as stated: a timestamp one day in the future gives
age -1, which is negative, not the claimed clamp to 0. -/
theorem age_days_negative_counterexample :
    calculate_age_days 0 86400 = -1 ∧ ¬ (0 ≤ calculate_age_days 0 86400) := by
  norm_num [calculate_age_days]

/-- C7 (amended): age_days equals (now − timestamp)/86400 with no clamping
anywhere: a future timestamp yields a strictly negative age, the recency
weight with decay enabled then exceeds 1, and recall reports the unclamped
age as computed. -/
theorem age_days_unclamped (now ts : ℚ) (h : now < ts) :
    calculate_age_days now ts < 0 ∧
    1 < recency_weight true (calculate_age_days now ts) ∧
    ∀ (queryEmb : Vec) (decay : Bool) (c : Candidate),
      (scoreCandidate queryEmb now decay c).age_days =
        calculate_age_days now c.meta.timestamp := by
  have hneg : calculate_age_days now ts < 0 := by
    unfold calculate_age_days
    apply div_neg_of_neg_of_pos
    · linarith
    · norm_num
  refine ⟨hneg, ?_, fun q decay c => rfl⟩
  have hy : 1 < 1 - DECAY_RATE * calculate_age_days now ts := by
    unfold DECAY_RATE
    nlinarith
  calc (1 : ℚ) < 1 - DECAY_RATE * calculate_age_days now ts := hy
    _ ≤ max 0 (1 - DECAY_RATE * calculate_age_days now ts) := le_max_right _ _
    _ = recency_weight true (calculate_age_days now ts) := by rw [recency_weight]; simp

/-- Witness for the amended C7 at a concrete future timestamp. -/
theorem age_days_unclamped_witness :
    calculate_age_days 0 86400 < 0 ∧
      1 < recency_weight true (calculate_age_days 0 86400) :=
  ⟨(age_days_unclamped 0 86400 (by norm_num)).1,
   (age_days_unclamped 0 86400 (by norm_num)).2.1⟩

/-- Stable insertion permutes to a cons. -/
lemma insertScored_perm (x : RecallResult) (l : List RecallResult) :
    (insertScored x l).Perm (x :: l) := by
  induction l with
  | nil => exact List.Perm.refl _
  | cons y ys ih =>
    unfold insertScored
    by_cases h : y.score ≤ x.score
    · rw [if_pos h]
    · rw [if_neg h]
      exact (ih.cons y).trans (List.Perm.swap x y ys)

/-- The descending stable sort is a permutation of its input. -/
lemma sortByScoreDesc_perm (l : List RecallResult) :
    (sortByScoreDesc l).Perm l := by
  induction l with
  | nil => exact List.Perm.refl _
  | cons x xs ih =>
    exact (insertScored_perm x (sortByScoreDesc xs)).trans (ih.cons x)

/-- Every returned recall result is the scoring of one of the candidates
the store returned for the oversampled request. -/
lemma mem_recallEndpoint {store : Nat → List Candidate} {queryEmb : Vec}
    {k : Nat} {decay : Bool} {now : ℚ} {r : RecallResult}
    (h : r ∈ recallEndpoint store queryEmb k decay now) :
    ∃ c ∈ store (min (k * 2) 100), r = scoreCandidate queryEmb now decay c := by
  unfold recallEndpoint at h
  by_cases he : (store (min (k * 2) 100)).isEmpty
  · rw [if_pos he] at h
    exact absurd h (List.not_mem_nil r)
  · rw [if_neg he] at h
    have h2 := List.take_subset _ _ h
    have h3 := (sortByScoreDesc_perm _).mem_iff.mp h2
    obtain ⟨c, hc, hr⟩ := List.mem_map.mp h3
    exact ⟨c, hc, hr.symm⟩

/-- C6: every result the recall path returns has final score equal to
raw_similarity * (ALPHA * recency_weight + (1 − ALPHA) * importance) with
ALPHA = 0.7, where the recency weight is max(0, 1 − 0.01 * age_days) when
decay is enabled and exactly 1 regardless of age when decay is false. -/
theorem final_score_formula (store : Nat → List Candidate) (queryEmb : Vec)
    (k : Nat) (decay : Bool) (now : ℚ) (r : RecallResult)
    (h : r ∈ recallEndpoint store queryEmb k decay now) :
    r.score = r.raw_similarity *
      (ALPHA * recency_weight decay r.age_days +
        (1 - ALPHA) * r.metadata.importance.getD (1/2)) ∧
    (∀ a : ℚ, recency_weight true a = max 0 (1 - DECAY_RATE * a)) ∧
    (∀ a : ℚ, recency_weight false a = 1) ∧
    ALPHA = 7/10 ∧ DECAY_RATE = 1/100 := by
  obtain ⟨c, -, rfl⟩ := mem_recallEndpoint h
  exact ⟨rfl, fun a => rfl, fun a => rfl, rfl, rfl⟩

/-- Witness for C6 at a concrete recall run with one candidate. -/
theorem final_score_formula_witness :
    (scoreCandidate [1, 0] 0 true candZero).score =
      (scoreCandidate [1, 0] 0 true candZero).raw_similarity *
        (ALPHA * recency_weight true (scoreCandidate [1, 0] 0 true candZero).age_days +
          (1 - ALPHA) *
            (scoreCandidate [1, 0] 0 true candZero).metadata.importance.getD (1/2)) :=
  (final_score_formula (fun _ => [candZero]) [1, 0] 5 true 0
    (scoreCandidate [1, 0] 0 true candZero)
    (by norm_num [recallEndpoint, sortByScoreDesc, insertScored])).1

/-- The initial accumulator bounds a max-fold from below. -/
lemma le_foldl_max (l : List ℚ) : ∀ a : ℚ, a ≤ List.foldl max a l := by
  induction l with
  | nil => intro a; simp
  | cons b l ih =>
    intro a
    exact le_trans (le_max_left a b) (ih (max a b))

/-- Every element of the list bounds a max-fold from below. -/
lemma mem_le_foldl_max (l : List ℚ) : ∀ (a x : ℚ), x ∈ l → x ≤ List.foldl max a l := by
  induction l with
  | nil => intro a x hx; exact absurd hx (List.not_mem_nil x)
  | cons b l ih =>
    intro a x hx
    rcases List.mem_cons.mp hx with rfl | hx
    · exact le_trans (le_max_right a x) (le_foldl_max l (max a x))
    · exact ih (max a b) x hx

/-- A max-fold yields its initial accumulator or one of the elements. -/
lemma foldl_max_mem (l : List ℚ) :
    ∀ a : ℚ, List.foldl max a l = a ∨ List.foldl max a l ∈ l := by
  induction l with
  | nil => intro a; left; rfl
  | cons b l ih =>
    intro a
    rcases ih (max a b) with h | h
    · rcases max_choice a b with hm | hm
      · left; rw [List.foldl_cons, h, hm]
      · right; rw [List.foldl_cons, h, hm]; exact List.mem_cons_self b l
    · right; exact List.mem_cons_of_mem b h

/-- When the importance extraction succeeds, every member carries an
importance value. -/
lemma importancesOf_isSome {c : List Entry} {l : List ℚ}
    (h : importancesOf c = some l) : ∀ m ∈ c, ∃ im, m.meta.importance = some im := by
  induction c generalizing l with
  | nil => intro m hm; exact absurd hm (List.not_mem_nil m)
  | cons e rest ih =>
    intro m hm
    unfold importancesOf at h
    rw [List.mapM_cons] at h
    cases he : e.meta.importance with
    | none => rw [he] at h; simp at h
    | some i =>
      rw [he] at h
      rcases List.mem_cons.mp hm with rfl | hm
      · exact ⟨i, he⟩
      · cases hr : rest.mapM (fun m => m.meta.importance) with
        | none => rw [hr] at h; simp at h
        | some l' => exact ih hr m hm

/-- The maximal timestamp occurs among the cluster's timestamps. -/
lemma maxTimestamp_mem (e : Entry) (rest : List Entry) :
    maxTimestamp e rest ∈ (e :: rest).map (fun m => m.meta.timestamp) := by
  unfold maxTimestamp
  rcases foldl_max_mem (rest.map (fun m => m.meta.timestamp)) e.meta.timestamp with h | h
  · rw [List.map_cons, h]; exact List.mem_cons_self _ _
  · rw [List.map_cons]; exact List.mem_cons_of_mem _ h

/-- The newest index is a valid index into the cluster. -/
lemma newestIdx_lt (e : Entry) (rest : List Entry) :
    newestIdx e rest < (e :: rest).length := by
  have h := @List.findIdx_lt_length_of_exists _
    (fun t => t == maxTimestamp e rest)
    ((e :: rest).map (fun m => m.meta.timestamp))
    ⟨maxTimestamp e rest, maxTimestamp_mem e rest, by simp⟩
  simpa [newestIdx] using h

/-- The member at the newest index carries the maximal timestamp. -/
lemma newestIdx_timestamp (e : Entry) (rest : List Entry) :
    ((e :: rest).get ⟨newestIdx e rest, newestIdx_lt e rest⟩).meta.timestamp =
      maxTimestamp e rest := by
  have hlen : newestIdx e rest <
      ((e :: rest).map (fun m => m.meta.timestamp)).length := by
    simpa using newestIdx_lt e rest
  have h := @List.findIdx_getElem _
    (fun t => t == maxTimestamp e rest)
    ((e :: rest).map (fun m => m.meta.timestamp))
    (by simpa [newestIdx] using hlen)
  have h2 := eq_of_beq h
  rw [List.getElem_map] at h2
  simpa [newestIdx, List.get_eq_getElem] using h2

/-- C5: for every successful merge of a cluster, the deleted ids are all
the members in order, merge_count is the members' merge_count sum plus
(cluster_size − 1), importance is the maximum over members, the source is
the reserved compaction marker, last_merged_at is the merge instant, and
the timestamp, representative text and topic are those of the member at
the first index attaining the maximal timestamp (ties broken by member
order, first occurrence wins; a missing topic stays absent since the
newest member's optional topic is copied as is). -/
theorem merged_metadata_spec (now : ℚ) (c : List Entry) (m : Merged)
    (dels : List String) (h : merge_cluster now c = some (m, dels)) :
    dels = c.map (fun e => e.id) ∧
    m.meta.source = "compaction" ∧
    m.meta.last_merged_at = some now ∧
    m.meta.merge_count =
      some ((c.map (fun e => e.meta.merge_count.getD 0)).sum + (c.length : ℤ) - 1) ∧
    (∃ v, m.meta.importance = some v ∧
      (∀ e ∈ c, ∀ im : ℚ, e.meta.importance = some im → im ≤ v) ∧
      (∃ e ∈ c, e.meta.importance = some v)) ∧
    (∃ idx, ∃ hidx : idx < c.length,
      m.meta.timestamp = (c.get ⟨idx, hidx⟩).meta.timestamp ∧
      m.text = (c.get ⟨idx, hidx⟩).doc ∧
      m.meta.topic = (c.get ⟨idx, hidx⟩).meta.topic ∧
      (∀ e ∈ c, e.meta.timestamp ≤ m.meta.timestamp) ∧
      (∀ j, ∀ hj : j < idx,
        (c.get ⟨j, Nat.lt_trans hj hidx⟩).meta.timestamp < m.meta.timestamp)) := by
  cases c with
  | nil => simp [merge_cluster] at h
  | cons e rest =>
    cases him : importancesOf (e :: rest) with
    | none => simp [merge_cluster, him] at h
    | some l =>
      have hsome := importancesOf_isSome him
      simp only [merge_cluster, him, Option.some.injEq, Prod.mk.injEq] at h
      obtain ⟨hm, hdels⟩ := h
      subst hm
      subst hdels
      have hgetD : (e :: rest).getD (newestIdx e rest) e =
          (e :: rest).get ⟨newestIdx e rest, newestIdx_lt e rest⟩ := by
        rw [List.getD_eq_getElem?_getD,
          List.getElem?_eq_getElem (newestIdx_lt e rest)]
        simp [List.get_eq_getElem]
      refine ⟨rfl, rfl, rfl, rfl, ?_, ?_⟩
      · refine ⟨maxImportance e rest, rfl, ?_, ?_⟩
        · intro x hx im him'
          have hxim : x.meta.importance.getD 0 = im := by rw [him']; rfl
          unfold maxImportance
          rcases List.mem_cons.mp hx with rfl | hx
          · rw [← hxim]; exact le_foldl_max _ _
          · rw [← hxim]
            exact mem_le_foldl_max _ _ _ (List.mem_map_of_mem _ hx)
        · unfold maxImportance
          rcases foldl_max_mem (rest.map (fun m => m.meta.importance.getD 0))
            (e.meta.importance.getD 0) with hv | hv
          · obtain ⟨ie, hie⟩ := hsome e (List.mem_cons_self _ _)
            refine ⟨e, List.mem_cons_self _ _, ?_⟩
            rw [hv, hie]
            rfl
          · obtain ⟨x, hx, hxv⟩ := List.mem_map.mp hv
            obtain ⟨ix, hix⟩ := hsome x (List.mem_cons_of_mem _ hx)
            rw [hix] at hxv
            simp only [Option.getD_some] at hxv
            exact ⟨x, List.mem_cons_of_mem _ hx, by rw [hix, ← hxv]⟩
      · refine ⟨newestIdx e rest, newestIdx_lt e rest, ?_, ?_, ?_, ?_, ?_⟩
        · rw [hgetD]
        · rw [hgetD]
        · rw [hgetD]
        · intro x hx
          rw [hgetD, newestIdx_timestamp]
          unfold maxTimestamp
          rcases List.mem_cons.mp hx with rfl | hx
          · exact le_foldl_max _ _
          · exact mem_le_foldl_max _ _ _ (List.mem_map_of_mem _ hx)
        · intro j hj
          rw [hgetD, newestIdx_timestamp]
          have hjlen : j < (e :: rest).length :=
            Nat.lt_trans hj (newestIdx_lt e rest)
          have hjlen' : j < ((e :: rest).map (fun m => m.meta.timestamp)).length := by
            simpa using hjlen
          have hne := @List.not_of_lt_findIdx _
            (fun t => t == maxTimestamp e rest)
            ((e :: rest).map (fun m => m.meta.timestamp)) j
            (by simpa [newestIdx] using hj)
          rw [List.getElem_map] at hne
          have hne2 : ((e :: rest)[j]).meta.timestamp ≠ maxTimestamp e rest := by
            intro hcontra
            rw [hcontra] at hne
            simp at hne
          have hle : ((e :: rest)[j]).meta.timestamp ≤ maxTimestamp e rest := by
            unfold maxTimestamp
            rcases List.mem_cons.mp (List.getElem_mem hjlen) with hEq | hx
            · rw [hEq]; exact le_foldl_max _ _
            · exact mem_le_foldl_max _ _ _ (List.mem_map_of_mem _ hx)
          rw [List.get_eq_getElem]
          exact lt_of_le_of_ne hle hne2

/-- The result of merging entA and entB at instant 0. -/
def mergedAB : Merged :=
  { text := "doc a", emb := [1, 0],
    meta := { timestamp := 0, importance := some 1, topic := none,
              source := "compaction", merge_count := some 1,
              last_merged_at := some 0 } }

/-- Concrete merge run: the cluster of entA and entB (equal timestamps, so
the tie-break picks entA, the first occurrence). -/
lemma merge_pair_eval :
    merge_cluster 0 [entA, entB] = some (mergedAB, ["a", "b"]) := by
  norm_num [merge_cluster, importancesOf, List.mapM, List.mapM.loop,
    List.findIdx_cons, maxTimestamp, newestIdx, maxImportance,
    merge_prenorm, merge_weights, normalizedWeights,
    weightedVecSum, vecScale, vecAdd, vecNorm, vecNormSq, dot,
    calculate_age_days, DECAY_RATE, entA, entB, mergedAB]

/-- Witness for C5 at the concrete two-member cluster. -/
theorem merged_metadata_spec_witness :
    (["a", "b"] : List String) = ([entA, entB] : List Entry).map (fun e => e.id) ∧
    mergedAB.meta.source = "compaction" ∧
    mergedAB.meta.merge_count =
      some ((([entA, entB] : List Entry).map (fun e => e.meta.merge_count.getD 0)).sum +
        (([entA, entB] : List Entry).length : ℤ) - 1) :=
  ⟨(merged_metadata_spec 0 [entA, entB] mergedAB ["a", "b"] merge_pair_eval).1,
   (merged_metadata_spec 0 [entA, entB] mergedAB ["a", "b"] merge_pair_eval).2.1,
   (merged_metadata_spec 0 [entA, entB] mergedAB ["a", "b"] merge_pair_eval).2.2.2.1⟩

/-- Stable insertion preserves descending sortedness. -/
lemma insertScored_pairwise (x : RecallResult) (l : List RecallResult)
    (h : l.Pairwise (fun a b => b.score ≤ a.score)) :
    (insertScored x l).Pairwise (fun a b => b.score ≤ a.score) := by
  induction l with
  | nil => simp [insertScored]
  | cons y ys ih =>
    unfold insertScored
    obtain ⟨hy, hys⟩ := List.pairwise_cons.mp h
    by_cases hxy : y.score ≤ x.score
    · rw [if_pos hxy]
      refine List.Pairwise.cons ?_ h
      intro z hz
      rcases List.mem_cons.mp hz with rfl | hz
      · exact hxy
      · exact le_trans (hy z hz) hxy
    · rw [if_neg hxy]
      refine List.Pairwise.cons ?_ (ih hys)
      intro z hz
      have hz2 := (insertScored_perm x ys).mem_iff.mp hz
      rcases List.mem_cons.mp hz2 with rfl | hz2
      · exact le_of_lt (lt_of_not_ge hxy)
      · exact hy z hz2

/-- The descending stable sort is sorted (nonstrictly) by score. -/
lemma sortByScoreDesc_pairwise (l : List RecallResult) :
    (sortByScoreDesc l).Pairwise (fun a b => b.score ≤ a.score) := by
  induction l with
  | nil => simp [sortByScoreDesc]
  | cons x xs ih => exact insertScored_pairwise x (sortByScoreDesc xs) ih

/-- Stability of the insertion step: restricted to any fixed score value,
inserting keeps the element in front of the equal-scored suffix, because
it is placed after exactly the strictly greater scores. -/
lemma filter_insertScored (x : RecallResult) (l : List RecallResult) (s : ℚ) :
    (insertScored x l).filter (fun r => r.score == s) =
      if (x.score == s) = true then x :: l.filter (fun r => r.score == s)
      else l.filter (fun r => r.score == s) := by
  induction l with
  | nil =>
    cases hx : (x.score == s) <;> simp [insertScored, List.filter, hx]
  | cons y ys ih =>
    unfold insertScored
    by_cases hxy : y.score ≤ x.score
    · rw [if_pos hxy]
      cases hx : (x.score == s) <;> simp [List.filter_cons, hx]
    · rw [if_neg hxy]
      have hlt : x.score < y.score := lt_of_not_ge hxy
      cases hx : (x.score == s) with
      | false => simp [List.filter_cons, ih, hx]
      | true =>
        have hxs : x.score = s := eq_of_beq hx
        have hyne : (y.score == s) = false := by
          apply beq_eq_false_iff_ne.mpr
          intro hys
          rw [← hxs] at hys
          exact absurd hys (ne_of_gt hlt)
        simp [List.filter_cons, ih, hx, hyne]

/-- Stability of the sort: for every fixed score value, the sorted list
restricted to that score equals the input so restricted — equal-scored
results keep their original retrieval order. -/
lemma filter_sortByScoreDesc (l : List RecallResult) (s : ℚ) :
    (sortByScoreDesc l).filter (fun r => r.score == s) =
      l.filter (fun r => r.score == s) := by
  induction l with
  | nil => rfl
  | cons x xs ih =>
    show (insertScored x (sortByScoreDesc xs)).filter (fun r => r.score == s) = _
    rw [filter_insertScored]
    cases hx : (x.score == s) with
    | false => simp [List.filter_cons, ih, hx]
    | true => simp [List.filter_cons, ih, hx]

/-- C8: the recall path requests k_raw = min(k * 2, 100) candidates from
the store, and its output is the first k of the stable descending sort of
the scored candidates: it is sorted descending by final score, ties keep
the original retrieval order (filtering sorted and unsorted lists by any
fixed score value agree), its length is min k (number of candidates) — all
candidates when fewer than k — and zero candidates give the empty list. -/
theorem recall_oversample_sort_truncate (store : Nat → List Candidate)
    (queryEmb : Vec) (k : Nat) (decay : Bool) (now : ℚ) :
    recallEndpoint store queryEmb k decay now =
      (sortByScoreDesc
        ((store (min (k * 2) 100)).map (scoreCandidate queryEmb now decay))).take k ∧
    (recallEndpoint store queryEmb k decay now).length =
      min k (store (min (k * 2) 100)).length ∧
    (recallEndpoint store queryEmb k decay now).Pairwise
      (fun a b => b.score ≤ a.score) ∧
    (sortByScoreDesc
        ((store (min (k * 2) 100)).map (scoreCandidate queryEmb now decay))).Perm
      ((store (min (k * 2) 100)).map (scoreCandidate queryEmb now decay)) ∧
    (∀ s : ℚ,
      (sortByScoreDesc
          ((store (min (k * 2) 100)).map (scoreCandidate queryEmb now decay))).filter
        (fun r => r.score == s) =
      ((store (min (k * 2) 100)).map (scoreCandidate queryEmb now decay)).filter
        (fun r => r.score == s)) ∧
    (store (min (k * 2) 100) = [] →
      recallEndpoint store queryEmb k decay now = []) := by
  have heq : recallEndpoint store queryEmb k decay now =
      (sortByScoreDesc
        ((store (min (k * 2) 100)).map (scoreCandidate queryEmb now decay))).take k := by
    unfold recallEndpoint
    by_cases he : (store (min (k * 2) 100)).isEmpty
    · rw [if_pos he]
      rw [List.isEmpty_iff.mp he]
      simp [sortByScoreDesc]
    · rw [if_neg he]
  refine ⟨heq, ?_, ?_, sortByScoreDesc_perm _, filter_sortByScoreDesc _, ?_⟩
  · rw [heq, List.length_take,
      (sortByScoreDesc_perm
        ((store (min (k * 2) 100)).map (scoreCandidate queryEmb now decay))).length_eq,
      List.length_map]
  · rw [heq]
    exact List.Pairwise.sublist (List.take_sublist k _) (sortByScoreDesc_pairwise _)
  · intro hnil
    rw [heq, hnil]
    simp [sortByScoreDesc]

/-- Witness for C8: with an empty store recall returns the empty list, and
with two stored candidates and k = 1 it returns min 1 2 = 1 result. -/
theorem recall_oversample_sort_truncate_witness :
    recallEndpoint (fun _ => []) [1, 0] 5 true 0 = [] ∧
    (recallEndpoint (fun _ => [candZero, candNoImp]) [1, 0] 1 true 0).length =
      min 1 ([candZero, candNoImp] : List Candidate).length :=
  ⟨(recall_oversample_sort_truncate (fun _ => []) [1, 0] 5 true 0).2.2.2.2.2 rfl,
   (recall_oversample_sort_truncate (fun _ => [candZero, candNoImp])
      [1, 0] 1 true 0).2.1⟩

end TraceMind
